import Mathlib

/-!
Shallow embedding of `scrape_ratings.py` (ECL-Ratings): the identifier
parser `parse_id`, the roster loader `load_players`, the rating aggregator
`get_ratings`, the per-player loop of `main`, and the report writer
`write_ratings`.  The network fetch (session get + HTML parse) is the
external collaborator boundary and is modelled as a function
`sess : String → Nat → Option RawRating`: `none` models a page whose title
is the Page Not Found marker (nonexistent account), `some r` models a
profile page from which the Current Rating cell text (empty iff zero
games) and the Highest Rating cell text were read.
-/

set_option autoImplicit false

deriving instance DecidableEq for Except

namespace ECL

/-- A raw per-account rating as scraped from a profile page:
`current = none` models an empty Current Rating cell (zero games on the
ladder, the `if current:` test in the source), `highest` is the integer
parsed from the Highest Rating cell. -/
structure RawRating where
  current : Option Int
  highest : Int
deriving DecidableEq

/-- The six ASCII whitespace characters stripped by the ASCII-level
integer parser (CPython `PyLong_FromString`).  ASCII control characters
outside this set — e.g. `\x1c`–`\x1f` — are NOT stripped by `int()`
(they are below 127 and so bypass the Unicode transform below);
non-ASCII whitespace is handled by `pyTransform`, not here. -/
def isPySpace (c : Char) : Bool :=
  c = ' ' || c = '\t' || c = '\n' || c = '\r' || c = '\x0b' || c = '\x0c'

/-- Start code points of the runs of ten Unicode decimal digits
(category Nd), each run holding the digits 0–9 of one script, per the
Unicode 14 data CPython ships (the run at 48 is the ASCII digits). -/
def ndDigitStarts : List Nat :=
  [48, 1632, 1776, 1984, 2406, 2534, 2662, 2790, 2918, 3046, 3174, 3302,
   3430, 3558, 3664, 3792, 3872, 4160, 4240, 6112, 6160, 6470, 6608, 6784,
   6800, 6992, 7088, 7232, 7248, 42528, 43216, 43264, 43472, 43504, 43600,
   44016, 65296, 66720, 68912, 69734, 69872, 69942, 70096, 70384, 70736,
   70864, 71248, 71360, 71472, 71904, 72016, 72784, 73040, 73120, 92768,
   92864, 93008, 120782, 120792, 120802, 120812, 120822, 123200, 123632,
   125264, 130032]

/-- CPython `Py_UNICODE_TODECIMAL`: the decimal value of a Unicode
decimal digit (category Nd), `none` for any other code point. -/
def uniDecimal (n : Nat) : Option Nat :=
  match ndDigitStarts.find? (fun s => s ≤ n && n < s + 10) with
  | some s => some (n - s)
  | none => none

/-- CPython `Py_UNICODE_ISSPACE` above ASCII: the non-ASCII Unicode
whitespace code points (NEL, NBSP, Ogham space mark, the U+2000–U+200A
spaces, line and paragraph separators, narrow no-break space, medium
mathematical space, ideographic space). -/
def isUniSpace (n : Nat) : Bool :=
  n = 133 || n = 160 || n = 5760 || (8192 ≤ n && n ≤ 8202) || n = 8232 ||
    n = 8233 || n = 8239 || n = 8287 || n = 12288

/-- CPython `_PyUnicode_TransformDecimalAndSpaceToASCII`, applied by
`int(str)` before the ASCII-level parse: ASCII characters pass through
unchanged (so e.g. `\x1c` is NOT turned into a space), a non-ASCII
Unicode decimal digit becomes the corresponding ASCII digit, non-ASCII
Unicode whitespace becomes a space, and any other non-ASCII character
becomes `?`, an ASCII character on which the parse then fails. -/
def pyTransform (c : Char) : Char :=
  if c.toNat ≤ 126 then c
  else
    match uniDecimal c.toNat with
    | some d => Char.ofNat (48 + d)
    | none => if isUniSpace c.toNat then ' ' else '?'

/-- After the first digit, Python integer-literal syntax allows further
digits with single underscores between digits. -/
def pyDigitsRest : List Char → Bool
  | [] => true
  | c :: rest =>
    if c = '_' then
      match rest with
      | [] => false
      | c2 :: rest2 => c2.isDigit && pyDigitsRest rest2
    else c.isDigit && pyDigitsRest rest

/-- A nonempty run of decimal digits with single underscores allowed
between digits (the part of a Python int literal after the sign). -/
def pyIntBody : List Char → Bool
  | [] => false
  | c :: rest => c.isDigit && pyDigitsRest rest

/-- Optional single leading sign followed by a digit run. -/
def pyIntSigned : List Char → Bool
  | [] => false
  | c :: rest =>
    if c = '+' || c = '-' then pyIntBody rest
    else pyIntBody (c :: rest)

/-- The ASCII-level grammar of CPython `PyLong_FromString` in base 10:
optional surrounding ASCII whitespace, optional sign, then decimal
digits with single underscores between digits. -/
def pyIntAsciiAccepts (cs : List Char) : Bool :=
  pyIntSigned (((cs.dropWhile isPySpace).reverse.dropWhile isPySpace).reverse)

/-- Model of Python `int(s)` succeeding on the string `s`, mirroring
CPython `PyLong_FromUnicodeObject`: first transform non-ASCII characters
(Unicode decimal digits to ASCII digits, Unicode whitespace to spaces,
anything else to the invalid marker), then apply the ASCII grammar — so
`int` accepts e.g. Arabic-Indic digit segments and NBSP-padded numbers.
This is the acceptance test performed by `int(uid)` in `parse_id`; the
parsed value is discarded by the source. -/
def pyIntAccepts (cs : List Char) : Bool :=
  pyIntAsciiAccepts (cs.map pyTransform)

/-- Embedding of Python `voobly_url.split('/')` on the character list:
splits on every slash, keeping empty segments, and yields `[[]]` on the
empty string. -/
def splitSlash : List Char → List (List Char)
  | [] => [[]]
  | '/' :: rest => [] :: splitSlash rest
  | c :: rest =>
    match splitSlash rest with
    | [] => [[c]]
    | seg :: more => (c :: seg) :: more

/-- The `view` path segment searched for by `parse_id`. -/
def viewSeg : List Char := ['v', 'i', 'e', 'w']

/-- The ValueError message raised by `parse_id`: the text
`The url <input> is incorrectly formatted.` with the input wrapped in
single-quote characters (written with escapes below). -/
def fmtError (voobly_url : String) : String :=
  "The url \x27" ++ voobly_url ++ "\x27 is incorrectly formatted."

/-- Embedding of `parse_id`: split the url on `/`, find the first `view`
segment (Python `list.index`), take the next segment, check it with
Python `int`, and return it unchanged; any of the three failures
(no `view`, `view` last, `int` rejects) raises the same ValueError
carrying the input. -/
def parse_id (voobly_url : String) : Except String String :=
  match (splitSlash voobly_url.data).findIdx? (fun seg => seg = viewSeg) with
  | none => .error (fmtError voobly_url)
  | some view_index =>
    match (splitSlash voobly_url.data)[view_index + 1]? with
    | none => .error (fmtError voobly_url)
    | some uid =>
      if pyIntAccepts uid then .ok (String.mk uid)
      else .error (fmtError voobly_url)

/-- Python errors surfaced by `load_players`: the ValueError re-raised
from `parse_id`, and the IndexError a row without cells would trigger at
`row[0]`. -/
inductive PyError where
  | valueError (msg : String)
  | indexError
deriving DecidableEq, Repr

/-- The list comprehension `[parse_id(uid) for uid in row[1:]]`: parses
each reference in order, propagating the first ValueError. -/
def parse_ids : List String → Except String (List String)
  | [] => .ok []
  | ref :: rest =>
    match parse_id ref with
    | .error e => .error e
    | .ok uid =>
      match parse_ids rest with
      | .error e => .error e
      | .ok uids => .ok (uid :: uids)

/-- Python dict assignment `players[name] = uids`: replace the value in
place if the key is present (keeping its insertion position), else append
the new binding. -/
def dictInsert : List (String × List String) → String → List String →
    List (String × List String)
  | [], name, uids => [(name, uids)]
  | (k, v) :: rest, name, uids =>
    if k = name then (name, uids) :: rest
    else (k, v) :: dictInsert rest name uids

/-- The `for row in rows` loop of `load_players`, threading the players
dict. -/
def load_rows : List (List String) → List (String × List String) →
    Except PyError (List (String × List String))
  | [], players => .ok players
  | row :: more, players =>
    match row with
    | [] => .error .indexError
    | name :: refs =>
      match parse_ids refs with
      | .error e => .error (.valueError e)
      | .ok uids => load_rows more (dictInsert players name uids)

/-- Embedding of `load_players` on the list of csv rows: empty input
yields the empty dict, a first cell equal to `player-name` drops the
header row, then each row maps its first cell to the parsed ids of the
remaining cells. -/
def load_players (rows : List (List String)) :
    Except PyError (List (String × List String)) :=
  match rows with
  | [] => .ok []
  | row0 :: rest =>
    match row0 with
    | [] => .error .indexError
    | cell0 :: _ =>
      if cell0 = "player-name" then load_rows rest []
      else load_rows (row0 :: rest) []

/-- The `for uid in uid_list` loop of `get_ratings`, threading
`max_current` and `max_highest` (both seeded with the -1 sentinel).  A
`none` fetch is the Page Not Found page and raises
`ValueError("{}".format(uid))`, i.e. the error carries exactly the uid. -/
def get_ratings_loop (sess : String → Nat → Option RawRating) (lid : Nat) :
    List String → Int → Int → Except String (Int × Int)
  | [], max_current, max_highest => .ok (max_current, max_highest)
  | uid :: rest, max_current, max_highest =>
    match sess uid lid with
    | none => .error uid
    | some r =>
      let mc :=
        match r.current with
        | none => max_current
        | some c => max max_current c
      get_ratings_loop sess lid rest mc (max max_highest r.highest)

/-- Embedding of `get_ratings`: run the loop from the (-1, -1) sentinels,
rewrite a still-sentinel current to the 1600 baseline, and return both
ratings as strings. -/
def get_ratings (sess : String → Nat → Option RawRating)
    (uid_list : List String) (lid : Nat) : Except String (String × String) :=
  match get_ratings_loop sess lid uid_list (-1) (-1) with
  | .error e => .error e
  | .ok (max_current, max_highest) =>
    .ok (toString (if max_current = -1 then 1600 else max_current),
         toString max_highest)

/-- The sequence of uids for which the loop of `get_ratings` performs a
fetch (each iteration issues exactly one `sess.get` before anything can
raise): every uid up to and including the first nonexistent one. -/
def fetchedUids (sess : String → Nat → Option RawRating) (lid : Nat) :
    List String → List String
  | [] => []
  | uid :: rest =>
    match sess uid lid with
    | none => [uid]
    | some _ => uid :: fetchedUids sess lid rest

/-- The `for ladder in parsed.ladders` loop of `main` for one player:
append the current then the highest rating for each requested ladder id,
propagating the ValueError of the first failing `get_ratings` call. -/
def rate_on_ladders (sess : String → Nat → Option RawRating)
    (uid_list : List String) : List Nat → Except String (List String)
  | [] => .ok []
  | lid :: rest =>
    match get_ratings sess uid_list lid with
    | .error e => .error e
    | .ok (current, highest) =>
      match rate_on_ladders sess uid_list rest with
      | .error e => .error e
      | .ok tail => .ok (current :: highest :: tail)

/-- One iteration of the per-player loop of `main`: a player whose
ladders all aggregate is appended to the ratings dict, a player whose
aggregation raises is removed from the ratings dict (`del`) and appended
to the invalid dict with `str(err)`. -/
def process_step (sess : String → Nat → Option RawRating) (lids : List Nat)
    (acc : List (String × List String) × List (String × String))
    (p : String × List String) :
    List (String × List String) × List (String × String) :=
  match rate_on_ladders sess p.2 lids with
  | .ok rs => (acc.1 ++ [(p.1, rs)], acc.2)
  | .error e => (acc.1, acc.2 ++ [(p.1, e)])

/-- The per-player loop of `main` over the roster (`player_profiles`
iterates in dict insertion order, so the roster is a key-unique assoc
list): produces the `ratings` dict and the `invalid_players` dict. -/
def process_players (sess : String → Nat → Option RawRating)
    (lids : List Nat) (profiles : List (String × List String)) :
    List (String × List String) × List (String × String) :=
  profiles.foldl (process_step sess lids) ([], [])

/-- Start of the header for the ratings output csv file. -/
def RATINGS_HEADER_START : String := "Player Name"

/-- Embedding of `write_ratings` as the list of lines written: a header
built by the `for ladder in ladders` loop appending a Current and a
Highest column per ladder, then one line per player joining the ratings
of that player. -/
def write_ratings (player_ratings : List (String × List String))
    (ladders : List String) : List String :=
  let header := ladders.foldl
    (fun acc ladder => acc ++ ["Current " ++ ladder, "Highest " ++ ladder])
    [RATINGS_HEADER_START]
  (String.intercalate ", " header) ::
    player_ratings.map
      (fun p => p.1 ++ ", " ++ String.intercalate ", " p.2)

/-! Claim-side descriptions, written from the spec sentences the claims
quote, to be compared with the embedded source functions. -/

/-- The maximum of a list of integers (junk value 0 on the empty list;
every use carries a nonemptiness hypothesis). -/
def listMax : List Int → Int
  | [] => 0
  | x :: xs => xs.foldl max x

/-- The rows of the roster actually treated as data: the first row is
dropped exactly when its first cell is the `player-name` header token. -/
def effRows : List (List String) → List (List String)
  | [] => []
  | row0 :: rest =>
    if row0.head? = some "player-name" then rest else row0 :: rest

/-- Whether the identifier parser accepts a reference string. -/
def parseOk (ref : String) : Bool :=
  match parse_id ref with
  | .ok _ => true
  | .error _ => false

/-- The first reference string, in row-major processing order over the
data rows, that the identifier parser rejects. -/
def firstFailingRef (rows : List (List String)) : Option String :=
  ((effRows rows).flatMap List.tail).find? (fun ref => !parseOk ref)

/-- The RawRatings fetched for a uid list on one ladder (meaningful when
every account exists). -/
def fetchedRatings (sess : String → Nat → Option RawRating) (lid : Nat)
    (uid_list : List String) : List RawRating :=
  uid_list.filterMap (fun uid => sess uid lid)

/-- The ratings-report entries of the per-player loop: one entry per
roster player whose aggregation succeeded on every requested ladder. -/
def successEntries (sess : String → Nat → Option RawRating) (lids : List Nat)
    (profiles : List (String × List String)) : List (String × List String) :=
  profiles.filterMap (fun p =>
    match rate_on_ladders sess p.2 lids with
    | .ok rs => some (p.1, rs)
    | .error _ => none)

/-- The invalid-players entries of the per-player loop: one entry, with
the failure detail, per roster player whose aggregation raised. -/
def failureEntries (sess : String → Nat → Option RawRating) (lids : List Nat)
    (profiles : List (String × List String)) : List (String × String) :=
  profiles.filterMap (fun p =>
    match rate_on_ladders sess p.2 lids with
    | .ok _ => none
    | .error e => some (p.1, e))

/-! ## Lemmas about the Python int model and list searching -/

theorem ne_of_isDigit {c d : Char} (h : c.isDigit = true)
    (hd : d.isDigit = false) : c ≠ d := by
  intro he
  rw [he, hd] at h
  simp at h

theorem isDigit_not_pySpace {c : Char} (h : c.isDigit = true) :
    isPySpace c = false := by
  cases hb : isPySpace c with
  | false => rfl
  | true =>
    exfalso
    simp only [isPySpace, Bool.or_eq_true, decide_eq_true_eq] at hb
    rcases hb with ((((rfl | rfl) | rfl) | rfl) | rfl) | rfl <;>
      exact absurd h (by decide)

theorem pyDigitsRest_of_digits :
    ∀ {cs : List Char}, (∀ c ∈ cs, c.isDigit = true) → pyDigitsRest cs = true
  | [], _ => rfl
  | c :: rest, h => by
    have hc : c.isDigit = true := h c (List.mem_cons_self c rest)
    have hcu : ¬(c = '_') := ne_of_isDigit hc (by decide)
    have ih := pyDigitsRest_of_digits (fun x hx => h x (List.mem_cons_of_mem c hx))
    unfold pyDigitsRest
    rw [if_neg hcu, hc, ih]
    rfl

theorem dropWhile_pySpace_eq_self {l : List Char}
    (h : ∀ c ∈ l, isPySpace c = false) : l.dropWhile isPySpace = l := by
  cases l with
  | nil => rfl
  | cons c rest =>
    rw [List.dropWhile_cons, h c (List.mem_cons_self c rest)]
    simp

theorem pyIntAsciiAccepts_of_digits {cs : List Char} (hne : cs ≠ [])
    (h : ∀ c ∈ cs, c.isDigit = true) : pyIntAsciiAccepts cs = true := by
  have hsp : ∀ c ∈ cs, isPySpace c = false :=
    fun c hc => isDigit_not_pySpace (h c hc)
  have hsp2 : ∀ c ∈ cs.reverse, isPySpace c = false :=
    fun c hc => hsp c (List.mem_reverse.mp hc)
  unfold pyIntAsciiAccepts
  rw [dropWhile_pySpace_eq_self hsp, dropWhile_pySpace_eq_self hsp2,
    List.reverse_reverse]
  cases cs with
  | nil => exact absurd rfl hne
  | cons c rest =>
    have hc := h c (List.mem_cons_self c rest)
    have hsign : ¬((c = '+' || c = '-') = true) := by
      simp only [Bool.or_eq_true, decide_eq_true_eq]
      rintro (rfl | rfl) <;> exact absurd hc (by decide)
    simp only [pyIntSigned, if_neg hsign, pyIntBody, hc, Bool.true_and]
    exact pyDigitsRest_of_digits (fun x hx => h x (List.mem_cons_of_mem c hx))

theorem toNat_le_of_isDigit {c : Char} (h : c.isDigit = true) :
    c.toNat ≤ 126 := by
  simp only [Char.isDigit, Bool.and_eq_true, decide_eq_true_eq] at h
  have h2 := h.2
  simp only [UInt32.le_def, BitVec.le_def] at h2
  simp only [Char.toNat, UInt32.toNat]
  have h57 : (UInt32.toBitVec 57).toNat = 57 := rfl
  omega

theorem pyTransform_of_isDigit {c : Char} (h : c.isDigit = true) :
    pyTransform c = c := by
  unfold pyTransform
  rw [if_pos (toNat_le_of_isDigit h)]

theorem map_pyTransform_of_digits :
    ∀ {cs : List Char}, (∀ c ∈ cs, c.isDigit = true) →
      cs.map pyTransform = cs
  | [], _ => rfl
  | c :: rest, h => by
    rw [List.map_cons, pyTransform_of_isDigit (h c (List.mem_cons_self c rest)),
      map_pyTransform_of_digits (fun x hx => h x (List.mem_cons_of_mem c hx))]

theorem pyIntAccepts_of_digits {cs : List Char} (hne : cs ≠ [])
    (h : ∀ c ∈ cs, c.isDigit = true) : pyIntAccepts cs = true := by
  unfold pyIntAccepts
  rw [map_pyTransform_of_digits h]
  exact pyIntAsciiAccepts_of_digits hne h

theorem findIdx_of_front (pre rest : List (List Char))
    (h : ∀ s ∈ pre, s ≠ viewSeg) :
    (pre ++ viewSeg :: rest).findIdx? (fun seg => seg = viewSeg) =
      some pre.length := by
  induction pre with
  | nil => simp
  | cons s pre ih =>
    have hs : ¬(s = viewSeg) := h s (List.mem_cons_self s pre)
    have ih2 := ih (fun x hx => h x (List.mem_cons_of_mem s hx))
    simp [List.findIdx?_cons, hs, ih2]

theorem findIdx_some_decomp (l : List (List Char)) (i : Nat)
    (h : l.findIdx? (fun seg => seg = viewSeg) = some i) :
    ∃ pre rest, l = pre ++ viewSeg :: rest ∧ pre.length = i ∧
      ∀ s ∈ pre, s ≠ viewSeg := by
  induction l generalizing i with
  | nil => simp at h
  | cons x xs ih =>
    rw [List.findIdx?_cons] at h
    split at h
    · rename_i hx
      simp only [decide_eq_true_eq] at hx
      injection h with h0
      exact ⟨[], xs, by simp [hx], by simp [h0], by simp⟩
    · rename_i hx
      simp only [decide_eq_true_eq] at hx
      rw [List.findIdx?_succ] at h
      rcases Option.map_eq_some'.mp h with ⟨j, hj, hji⟩
      rcases ih j hj with ⟨pre, rest, hl, hlen, hpre⟩
      refine ⟨x :: pre, rest, by simp [hl], by simp [hlen, hji], ?_⟩
      intro s hs
      rcases List.mem_cons.mp hs with rfl | hs2
      · exact hx
      · exact hpre s hs2

theorem parse_id_error_msg {url e : String}
    (h : parse_id url = Except.error e) : e = fmtError url := by
  unfold parse_id at h
  split at h
  · exact (Except.error.inj h).symm
  · split at h
    · exact (Except.error.inj h).symm
    · split at h
      · exact absurd h (by simp)
      · exact (Except.error.inj h).symm

theorem parse_id_eq_ok_of_decomp (url : String)
    (pre rest : List (List Char)) (uid : List Char)
    (hsplit : splitSlash url.data = pre ++ viewSeg :: uid :: rest)
    (hpre : ∀ s ∈ pre, s ≠ viewSeg)
    (hacc : pyIntAccepts uid = true) :
    parse_id url = Except.ok (String.mk uid) := by
  have h1 : (splitSlash url.data).findIdx? (fun seg => seg = viewSeg) =
      some pre.length := by
    rw [hsplit]
    exact findIdx_of_front pre (uid :: rest) hpre
  have h2 : (splitSlash url.data)[pre.length + 1]? = some uid := by
    rw [hsplit, List.getElem?_append_right (by omega)]
    have harith : pre.length + 1 - pre.length = 1 := by omega
    rw [harith]
    simp
  unfold parse_id
  rw [h1]
  simp [h2, hacc]

/-! ## C4 -/

/-- C4 (amended): for every reference string whose slash-split contains a
`view` segment, if the segment immediately following the FIRST `view`
segment exists and is a nonempty string of decimal digits, `parse_id`
returns that segment unchanged, regardless of scheme prefix, leading
segments, trailing slash, or trailing sub-path segments.  (The original
claim, quantifying over any `view` segment, fails: the source takes
`split_url.index("view")`, the first occurrence.) -/
theorem c4_parse_id_returns_segment_after_first_view (url : String)
    (pre rest : List (List Char)) (uid : List Char)
    (hsplit : splitSlash url.data = pre ++ viewSeg :: uid :: rest)
    (hpre : ∀ s ∈ pre, s ≠ viewSeg)
    (hne : uid ≠ [])
    (hdig : ∀ c ∈ uid, c.isDigit = true) :
    parse_id url = Except.ok (String.mk uid) :=
  parse_id_eq_ok_of_decomp url pre rest uid hsplit hpre
    (pyIntAccepts_of_digits hne hdig)

/-- C4 (witness): on `a/view/123` the first `view` segment is followed by
the digit segment `123`, and `parse_id` returns it. -/
theorem c4_witness : parse_id "a/view/123" = Except.ok "123" := by
  have h := c4_parse_id_returns_segment_after_first_view "a/view/123"
    [['a']] [] ['1', '2', '3'] (by decide) (by decide) (by decide) (by decide)
  exact h

/-- C4 (counterexample): the input `view/x/view/5` contains a `view`
segment (at index 2) followed by the decimal-integer segment `5`, yet
`parse_id` raises instead of returning `"5"`, because the first `view`
segment is followed by the non-numeric `x`. -/
theorem c4_counterexample :
    (splitSlash "view/x/view/5".data)[2]? = some viewSeg ∧
    (splitSlash "view/x/view/5".data)[3]? = some ['5'] ∧
    ('5').isDigit = true ∧
    parse_id "view/x/view/5" = Except.error (fmtError "view/x/view/5") := by
  decide

/-! ## C5 -/

/-- C5 (amended): `parse_id` raises the ValueError carrying the offending
input string exactly when the slash-split input has no `view` segment, or
`view` is the final segment, or the segment immediately following the
first `view` is not accepted by Python int-literal parsing (which,
unlike the plain nonnegative-decimal reading of the claim, also accepts
an optional sign, surrounding whitespace, and underscore digit
separators); for all other inputs it succeeds. -/
theorem c5_parse_id_failure_characterization (url : String) :
    ((∃ uid, parse_id url = Except.ok uid) ↔
      ∃ pre uid rest,
        splitSlash url.data = pre ++ viewSeg :: uid :: rest ∧
        (∀ s ∈ pre, s ≠ viewSeg) ∧ pyIntAccepts uid = true) ∧
    (∀ e, parse_id url = Except.error e → e = fmtError url) := by
  constructor
  · constructor
    · rintro ⟨uid, h⟩
      unfold parse_id at h
      split at h
      · exact absurd h (by simp)
      · rename_i view_index hf
        split at h
        · exact absurd h (by simp)
        · rename_i uid2 hg
          split at h
          · rename_i hacc
            rcases findIdx_some_decomp _ _ hf with ⟨pre, rest0, hsp, hlen, hpre⟩
            rw [hsp, List.getElem?_append_right (by omega)] at hg
            have harith : view_index + 1 - pre.length = 1 := by omega
            rw [harith] at hg
            cases rest0 with
            | nil => simp at hg
            | cons u rest1 =>
              simp only [List.getElem?_cons_succ, List.getElem?_cons_zero,
                Option.some.injEq] at hg
              exact ⟨pre, u, rest1, hsp, hpre, by rw [hg]; exact hacc⟩
          · exact absurd h (by simp)
    · rintro ⟨pre, uid, rest, hsp, hpre, hacc⟩
      exact ⟨String.mk uid, parse_id_eq_ok_of_decomp url pre rest uid hsp hpre hacc⟩
  · intro e h
    exact parse_id_error_msg h

/-- C5 (counterexample): on the input whose two slash-separated segments
are `view` and `-5`, the segment after `view` is not a nonnegative
decimal integer (it starts with a sign, not a digit), yet `parse_id`
succeeds and returns it, because Python `int("-5")` succeeds. -/
theorem c5_counterexample :
    parse_id "view/-5" = Except.ok "-5" ∧ ('-').isDigit = false := by
  decide

/-! ## Lemmas about the aggregation loop -/

theorem get_ratings_loop_ok (sess : String → Nat → Option RawRating)
    (lid : Nat) (uids : List String) :
    ∀ (mc mh : Int), (∀ u ∈ uids, (sess u lid).isSome = true) →
    get_ratings_loop sess lid uids mc mh =
      Except.ok
        (((fetchedRatings sess lid uids).filterMap RawRating.current).foldl max mc,
         ((fetchedRatings sess lid uids).map RawRating.highest).foldl max mh) := by
  induction uids with
  | nil => intro mc mh _; rfl
  | cons uid rest ih =>
    intro mc mh h
    obtain ⟨r, hr⟩ :=
      Option.isSome_iff_exists.mp (h uid (List.mem_cons_self uid rest))
    have hfetch : fetchedRatings sess lid (uid :: rest) =
        r :: fetchedRatings sess lid rest := by
      unfold fetchedRatings
      rw [List.filterMap_cons, hr]
    have ih2 := fun mc2 mh2 =>
      ih mc2 mh2 (fun u hu => h u (List.mem_cons_of_mem uid hu))
    cases hc : r.current with
    | none =>
      simp only [get_ratings_loop, hr, hc, hfetch, List.filterMap_cons,
        List.map_cons, List.foldl_cons]
      exact ih2 mc (max mh r.highest)
    | some c =>
      simp only [get_ratings_loop, hr, hc, hfetch, List.filterMap_cons,
        List.map_cons, List.foldl_cons]
      exact ih2 (max mc c) (max mh r.highest)

theorem le_foldl_max (l : List Int) : ∀ a : Int, a ≤ l.foldl max a := by
  induction l with
  | nil => intro a; exact le_refl a
  | cons x xs ih => intro a; exact le_trans (le_max_left a x) (ih (max a x))

theorem foldl_max_neg_one {l : List Int} (hne : l ≠ [])
    (hpos : ∀ x ∈ l, 0 ≤ x) : l.foldl max (-1) = listMax l := by
  cases l with
  | nil => exact absurd rfl hne
  | cons x xs =>
    have hx : (0 : Int) ≤ x := hpos x (List.mem_cons_self x xs)
    show List.foldl max (max (-1) x) xs = listMax (x :: xs)
    rw [max_eq_right (by linarith : (-1 : Int) ≤ x)]
    rfl

theorem listMax_nonneg {l : List Int} (hne : l ≠ [])
    (hpos : ∀ x ∈ l, 0 ≤ x) : 0 ≤ listMax l := by
  cases l with
  | nil => exact absurd rfl hne
  | cons x xs =>
    exact le_trans (hpos x (List.mem_cons_self x xs)) (le_foldl_max xs x)

theorem fetchedRatings_ne_nil {sess : String → Nat → Option RawRating}
    {lid : Nat} {uid_list : List String} (hne : uid_list ≠ [])
    (hex : ∀ u ∈ uid_list, (sess u lid).isSome = true) :
    fetchedRatings sess lid uid_list ≠ [] := by
  cases uid_list with
  | nil => exact absurd rfl hne
  | cons u us =>
    obtain ⟨r, hr⟩ :=
      Option.isSome_iff_exists.mp (hex u (List.mem_cons_self u us))
    unfold fetchedRatings
    rw [List.filterMap_cons, hr]
    simp

/-! ## C1 -/

/-- C1 (amended): for every nonempty list of account identifiers and
every ladder id, if the fetcher yields a RawRating for every identifier,
at least one RawRating has a present current rating, and every fetched
current and highest value is nonnegative, then `get_ratings` returns the
pair (string of the maximum present current rating, string of the
maximum highest rating).  (The nonnegativity proviso is forced by the -1
sentinel of the source: a maximum of -1 or below is replaced by the 1600
baseline resp. capped at -1, see the counterexample.) -/
theorem c1_get_ratings_max_across_accounts
    (sess : String → Nat → Option RawRating) (uid_list : List String)
    (lid : Nat) (hne : uid_list ≠ [])
    (hex : ∀ u ∈ uid_list, (sess u lid).isSome = true)
    (hcne : (fetchedRatings sess lid uid_list).filterMap RawRating.current ≠ [])
    (hcpos : ∀ c ∈ (fetchedRatings sess lid uid_list).filterMap RawRating.current,
      0 ≤ c)
    (hhpos : ∀ x ∈ (fetchedRatings sess lid uid_list).map RawRating.highest,
      0 ≤ x) :
    get_ratings sess uid_list lid =
      Except.ok
        (toString (listMax
          ((fetchedRatings sess lid uid_list).filterMap RawRating.current)),
         toString (listMax
          ((fetchedRatings sess lid uid_list).map RawRating.highest))) := by
  have hhne : (fetchedRatings sess lid uid_list).map RawRating.highest ≠ [] := by
    rw [Ne, List.map_eq_nil_iff]
    exact fetchedRatings_ne_nil hne hex
  unfold get_ratings
  rw [get_ratings_loop_ok sess lid uid_list (-1) (-1) hex]
  rw [foldl_max_neg_one hcne hcpos, foldl_max_neg_one hhne hhpos]
  have hc0 := listMax_nonneg hcne hcpos
  have hne1 :
      ¬(listMax ((fetchedRatings sess lid uid_list).filterMap RawRating.current)
        = -1) := by omega
  simp [if_neg hne1]

/-- C1 (witness): two accounts, one with zero games (absent current,
highest 1800), one with current 1900 and highest 1950: `get_ratings`
reports the maxima (1900, 1950). -/
theorem c1_witness :
    get_ratings
      (fun u _ => if u = "222" then some ⟨none, 1800⟩
                  else some ⟨some 1900, 1950⟩)
      ["222", "333"] 5 = Except.ok ("1900", "1950") := by
  have h := c1_get_ratings_max_across_accounts
    (fun u _ => if u = "222" then some ⟨none, 1800⟩
                else some ⟨some 1900, 1950⟩)
    ["222", "333"] 5 (by decide) (by decide) (by decide) (by decide) (by decide)
  rw [h]
  decide

/-- C1 (counterexample): a single existing account with present current
rating -1 and highest rating -7.  The maximum present current is -1 and
the maximum highest is -7, but `get_ratings` returns ("1600", "-1"): the
-1 sentinel conflates a present current of -1 with "no games", and the
highest starts from the -1 sentinel, so the claim as stated fails. -/
theorem c1_counterexample :
    get_ratings (fun _ _ => some ⟨some (-1), -7⟩) ["a"] 0 =
      Except.ok ("1600", "-1") ∧
    get_ratings (fun _ _ => some ⟨some (-1), -7⟩) ["a"] 0 ≠
      Except.ok (toString (-1 : Int), toString (-7 : Int)) := by
  decide

/-! ## C2 -/

/-- C2 (amended): for every nonempty list of account identifiers, if
every account exists, every RawRating has an absent current rating (zero
games on the ladder), and every highest rating is nonnegative,
`get_ratings` returns current equal to the fixed baseline 1600 and
highest equal to the maximum of the highest ratings of the
accounts.  (The
original "regardless of the highest values" fails for negative highest
values, which the -1 sentinel caps from below, see the
counterexample.) -/
theorem c2_get_ratings_all_zero_games
    (sess : String → Nat → Option RawRating) (uid_list : List String)
    (lid : Nat) (hne : uid_list ≠ [])
    (hex : ∀ u ∈ uid_list, (sess u lid).isSome = true)
    (habs : ∀ r ∈ fetchedRatings sess lid uid_list, r.current = none)
    (hhpos : ∀ x ∈ (fetchedRatings sess lid uid_list).map RawRating.highest,
      0 ≤ x) :
    get_ratings sess uid_list lid =
      Except.ok
        ("1600",
         toString (listMax
          ((fetchedRatings sess lid uid_list).map RawRating.highest))) := by
  have hhne : (fetchedRatings sess lid uid_list).map RawRating.highest ≠ [] := by
    rw [Ne, List.map_eq_nil_iff]
    exact fetchedRatings_ne_nil hne hex
  have hcnil : (fetchedRatings sess lid uid_list).filterMap RawRating.current
      = [] := by
    rw [List.filterMap_eq_nil_iff]
    exact habs
  unfold get_ratings
  rw [get_ratings_loop_ok sess lid uid_list (-1) (-1) hex]
  rw [hcnil, foldl_max_neg_one hhne hhpos, List.foldl_nil]
  simp [show toString (1600 : Int) = "1600" from rfl]

/-- C2 (witness): a single account with zero games and highest 1700:
`get_ratings` reports ("1600", "1700"). -/
theorem c2_witness :
    get_ratings (fun _ _ => some ⟨none, 1700⟩) ["444"] 5 =
      Except.ok ("1600", "1700") := by
  have h := c2_get_ratings_all_zero_games (fun _ _ => some ⟨none, 1700⟩)
    ["444"] 5 (by decide) (by decide) (by decide) (by decide)
  rw [h]
  decide

/-- C2 (counterexample): a single account with zero games and highest
rating -5.  The claim says highest is the maximum of the highest ratings
(-5) regardless of the highest values, but `get_ratings` returns
("1600", "-1"): the highest maximum starts from the -1 sentinel. -/
theorem c2_counterexample :
    get_ratings (fun _ _ => some ⟨none, -5⟩) ["a"] 0 =
      Except.ok ("1600", "-1") ∧
    get_ratings (fun _ _ => some ⟨none, -5⟩) ["a"] 0 ≠
      Except.ok ("1600", toString (-5 : Int)) := by
  decide

/-! ## C3 -/

theorem get_ratings_loop_error (sess : String → Nat → Option RawRating)
    (lid : Nat) (post : List String) (bad : String)
    (hbad : sess bad lid = none) :
    ∀ (pre : List String) (mc mh : Int),
    (∀ u ∈ pre, (sess u lid).isSome = true) →
    get_ratings_loop sess lid (pre ++ bad :: post) mc mh =
      Except.error bad := by
  intro pre
  induction pre with
  | nil =>
    intro mc mh _
    simp only [List.nil_append, get_ratings_loop, hbad]
  | cons u us ih =>
    intro mc mh h
    obtain ⟨r, hr⟩ :=
      Option.isSome_iff_exists.mp (h u (List.mem_cons_self u us))
    simp only [List.cons_append, get_ratings_loop, hr]
    exact ih _ _ (fun x hx => h x (List.mem_cons_of_mem u hx))

theorem fetchedUids_until_bad (sess : String → Nat → Option RawRating)
    (lid : Nat) (post : List String) (bad : String)
    (hbad : sess bad lid = none) :
    ∀ (pre : List String), (∀ u ∈ pre, (sess u lid).isSome = true) →
    fetchedUids sess lid (pre ++ bad :: post) = pre ++ [bad] := by
  intro pre
  induction pre with
  | nil =>
    intro _
    simp only [List.nil_append, fetchedUids, hbad]
  | cons u us ih =>
    intro h
    obtain ⟨r, hr⟩ :=
      Option.isSome_iff_exists.mp (h u (List.mem_cons_self u us))
    simp only [List.cons_append, fetchedUids, hr, List.append_eq]
    rw [ih (fun x hx => h x (List.mem_cons_of_mem u hx))]

/-- C3 (confirmed): if the fetcher signals that some identifier does not
exist, `get_ratings` raises a ValueError carrying exactly the first such
identifier (`pre` are the earlier identifiers, all existing, `post` the
later ones, arbitrary — so this holds even when every other identifier
is valid), and the loop fetches exactly the identifiers up to and
including the offending one: no later identifier is fetched. -/
theorem c3_invalid_account_first_failure
    (sess : String → Nat → Option RawRating) (lid : Nat)
    (pre post : List String) (bad : String)
    (hpre : ∀ u ∈ pre, (sess u lid).isSome = true)
    (hbad : sess bad lid = none) :
    get_ratings sess (pre ++ bad :: post) lid = Except.error bad ∧
    fetchedUids sess lid (pre ++ bad :: post) = pre ++ [bad] := by
  constructor
  · unfold get_ratings
    rw [get_ratings_loop_error sess lid post bad hbad pre (-1) (-1) hpre]
  · exact fetchedUids_until_bad sess lid post bad hbad pre hpre

/-- C3 (witness): with accounts a, bad, c where only bad does not exist,
`get_ratings` raises with exactly "bad" and fetches only a then bad. -/
theorem c3_witness :
    get_ratings (fun u _ => if u = "bad" then none else some ⟨some 1, 2⟩)
      ["a", "bad", "c"] 0 = Except.error "bad" ∧
    fetchedUids (fun u _ => if u = "bad" then none else some ⟨some 1, 2⟩)
      0 ["a", "bad", "c"] = ["a", "bad"] :=
  c3_invalid_account_first_failure _ 0 ["a"] ["c"] "bad" (by decide) (by decide)

/-! ## C10 -/

/-- C10 (confirmed): on the empty identifier list `get_ratings` fetches
nothing and returns ("1600", "-1"), leaking the -1 sentinel as the
reported highest rating; and `load_players` really can produce an empty
identifier list from a row holding only a player name. -/
theorem c10_empty_uid_list :
    (∀ (sess : String → Nat → Option RawRating) (lid : Nat),
      get_ratings sess [] lid = Except.ok ("1600", "-1") ∧
      fetchedUids sess lid [] = []) ∧
    load_players [["N"]] = Except.ok [("N", [])] := by
  refine ⟨fun sess lid => ⟨rfl, rfl⟩, by decide⟩

/-! ## Lemmas about the per-player loop of main -/

theorem process_foldl_eq (sess : String → Nat → Option RawRating)
    (lids : List Nat) (profiles : List (String × List String)) :
    ∀ acc, profiles.foldl (process_step sess lids) acc =
      (acc.1 ++ successEntries sess lids profiles,
       acc.2 ++ failureEntries sess lids profiles) := by
  induction profiles with
  | nil =>
    intro acc
    simp [successEntries, failureEntries]
  | cons p ps ih =>
    intro acc
    rw [List.foldl_cons, ih (process_step sess lids acc p)]
    unfold process_step successEntries failureEntries
    cases hre : rate_on_ladders sess p.2 lids with
    | ok rs => simp [hre, List.filterMap_cons]
    | error e => simp [hre, List.filterMap_cons]

theorem process_players_eq (sess : String → Nat → Option RawRating)
    (lids : List Nat) (profiles : List (String × List String)) :
    process_players sess lids profiles =
      (successEntries sess lids profiles, failureEntries sess lids profiles) := by
  unfold process_players
  rw [process_foldl_eq sess lids profiles ([], [])]
  simp

theorem eq_of_mem_nodup_fst {α β : Type} {l : List (α × β)}
    (hnd : (l.map Prod.fst).Nodup) {p q : α × β}
    (hp : p ∈ l) (hq : q ∈ l) (hfst : p.1 = q.1) : p = q := by
  induction l with
  | nil => cases hp
  | cons x xs ih =>
    rw [List.map_cons, List.nodup_cons] at hnd
    rcases List.mem_cons.mp hp with rfl | hp2
    · rcases List.mem_cons.mp hq with rfl | hq2
      · rfl
      · exact absurd (by rw [hfst]; exact List.mem_map_of_mem Prod.fst hq2)
          hnd.1
    · rcases List.mem_cons.mp hq with rfl | hq2
      · exact absurd (by rw [← hfst]; exact List.mem_map_of_mem Prod.fst hp2)
          hnd.1
      · exact ih hnd.2 hp2 hq2

theorem mem_fst_successEntries {sess : String → Nat → Option RawRating}
    {lids : List Nat} {profiles : List (String × List String)} {n : String}
    (h : n ∈ (successEntries sess lids profiles).map Prod.fst) :
    ∃ uids, (n, uids) ∈ profiles ∧
      ∃ rs, rate_on_ladders sess uids lids = Except.ok rs := by
  rcases List.mem_map.mp h with ⟨entry, hentry, hfst⟩
  rcases List.mem_filterMap.mp hentry with ⟨p, hp, hfp⟩
  revert hfp
  cases hre : rate_on_ladders sess p.2 lids with
  | error e => intro hfp; simp at hfp
  | ok rs =>
    intro hfp
    simp only [Option.some.injEq] at hfp
    rw [← hfp] at hfst
    simp only [] at hfst
    refine ⟨p.2, ?_, rs, hre⟩
    rw [← hfst]
    simpa using hp

theorem mem_fst_failureEntries {sess : String → Nat → Option RawRating}
    {lids : List Nat} {profiles : List (String × List String)} {n : String}
    (h : n ∈ (failureEntries sess lids profiles).map Prod.fst) :
    ∃ uids, (n, uids) ∈ profiles ∧
      ∃ e, rate_on_ladders sess uids lids = Except.error e := by
  rcases List.mem_map.mp h with ⟨entry, hentry, hfst⟩
  rcases List.mem_filterMap.mp hentry with ⟨p, hp, hfp⟩
  revert hfp
  cases hre : rate_on_ladders sess p.2 lids with
  | ok rs => intro hfp; simp at hfp
  | error e =>
    intro hfp
    simp only [Option.some.injEq] at hfp
    rw [← hfp] at hfst
    simp only [] at hfst
    refine ⟨p.2, ?_, e, hre⟩
    rw [← hfst]
    simpa using hp

/-! ## C6 -/

/-- C6 (confirmed): over a roster with unique player names (as produced
by the dict-backed `load_players`), the per-player loop of `main` sends
every player whose aggregation fails on some requested ladder to the
invalid-players output, exactly once and with the failure detail, sends
every never-failing player to the ratings output, and the two outputs
share no player name. -/
theorem c6_ratings_invalid_disjoint
    (sess : String → Nat → Option RawRating) (lids : List Nat)
    (profiles : List (String × List String))
    (hnd : (profiles.map Prod.fst).Nodup) :
    (process_players sess lids profiles).1 = successEntries sess lids profiles ∧
    (process_players sess lids profiles).2 = failureEntries sess lids profiles ∧
    ∀ n, n ∈ (process_players sess lids profiles).1.map Prod.fst →
      n ∉ (process_players sess lids profiles).2.map Prod.fst := by
  have hpp := process_players_eq sess lids profiles
  refine ⟨by rw [hpp], by rw [hpp], ?_⟩
  intro n hn1 hn2
  rw [hpp] at hn1 hn2
  rcases mem_fst_successEntries hn1 with ⟨uids1, hp1, rs, hok⟩
  rcases mem_fst_failureEntries hn2 with ⟨uids2, hp2, e, herr⟩
  have heq := eq_of_mem_nodup_fst hnd hp1 hp2 rfl
  have huid : uids1 = uids2 := congrArg Prod.snd heq
  rw [huid] at hok
  rw [hok] at herr
  simp at herr

/-- C6 (witness): player A aggregates (account a exists on ladder 0),
player D fails (account d does not exist); A is not among the
invalid-players names. -/
theorem c6_witness :
    "A" ∉ (process_players
      (fun u _ => if u = "d" then none else some ⟨some 5, 6⟩) [0]
      [("A", ["a"]), ("D", ["d"])]).2.map Prod.fst := by
  have h := c6_ratings_invalid_disjoint
    (fun u _ => if u = "d" then none else some ⟨some 5, 6⟩) [0]
    [("A", ["a"]), ("D", ["d"])] (by decide)
  exact h.2.2 "A" (by decide)

/-! ## Lemmas about the roster loader -/

theorem parse_id_of_parseOk_false {ref : String} (h : parseOk ref = false) :
    parse_id ref = Except.error (fmtError ref) := by
  unfold parseOk at h
  revert h
  cases hp : parse_id ref with
  | ok uid => intro h; simp at h
  | error e =>
    intro _
    rw [parse_id_error_msg hp]

theorem parse_id_of_parseOk_true {ref : String} (h : parseOk ref = true) :
    ∃ uid, parse_id ref = Except.ok uid := by
  unfold parseOk at h
  revert h
  cases hp : parse_id ref with
  | ok uid => intro _; exact ⟨uid, rfl⟩
  | error e => intro h; simp at h

theorem parse_ids_error_of_find {refs : List String} {bad : String}
    (h : refs.find? (fun r => !parseOk r) = some bad) :
    parse_ids refs = Except.error (fmtError bad) := by
  induction refs with
  | nil => simp at h
  | cons ref rest ih =>
    cases hb : parseOk ref with
    | true =>
      rw [List.find?_cons_of_neg _ (by simp [hb])] at h
      obtain ⟨uid, hpr⟩ := parse_id_of_parseOk_true hb
      simp only [parse_ids, hpr, ih h]
    | false =>
      rw [List.find?_cons_of_pos _ (by simp [hb])] at h
      injection h with hbad
      subst hbad
      simp only [parse_ids, parse_id_of_parseOk_false hb]

theorem parse_ids_ok_of_find_none {refs : List String}
    (h : refs.find? (fun r => !parseOk r) = none) :
    ∃ uids, parse_ids refs = Except.ok uids := by
  induction refs with
  | nil => exact ⟨[], rfl⟩
  | cons ref rest ih =>
    rw [List.find?_eq_none] at h
    have hb : parseOk ref = true := by
      have := h ref (List.mem_cons_self ref rest)
      simp at this
      exact this
    obtain ⟨uid, hpr⟩ := parse_id_of_parseOk_true hb
    obtain ⟨uids, hrest⟩ := ih (by
      rw [List.find?_eq_none]
      exact fun r hr => h r (List.mem_cons_of_mem ref hr))
    exact ⟨uid :: uids, by simp only [parse_ids, hpr, hrest]⟩

theorem load_rows_find (rs : List (List String)) :
    ∀ acc, (∀ row ∈ rs, row ≠ []) →
    ((∀ bad, (rs.flatMap List.tail).find? (fun r => !parseOk r) = some bad →
      load_rows rs acc = Except.error (.valueError (fmtError bad))) ∧
     ((rs.flatMap List.tail).find? (fun r => !parseOk r) = none →
      ∃ ps, load_rows rs acc = Except.ok ps)) := by
  induction rs with
  | nil =>
    intro acc _
    constructor
    · intro bad hbad; simp at hbad
    · intro _; exact ⟨acc, rfl⟩
  | cons row more ih =>
    intro acc hne
    obtain ⟨name, refs, rfl⟩ : ∃ name refs, row = name :: refs := by
      cases row with
      | nil => exact absurd rfl (hne [] (List.mem_cons_self _ _))
      | cons a b => exact ⟨a, b, rfl⟩
    have hmore : ∀ r ∈ more, r ≠ [] :=
      fun r hr => hne r (List.mem_cons_of_mem _ hr)
    have hflat : ((name :: refs) :: more).flatMap List.tail =
        refs ++ more.flatMap List.tail := by
      simp [List.flatMap_cons]
    constructor
    · intro bad hbad
      rw [hflat, List.find?_append] at hbad
      cases hf : refs.find? (fun r => !parseOk r) with
      | some b2 =>
        rw [hf, Option.or_some] at hbad
        injection hbad with hb2
        subst hb2
        simp only [load_rows, parse_ids_error_of_find hf]
      | none =>
        rw [hf, Option.none_or] at hbad
        obtain ⟨uids, hok⟩ := parse_ids_ok_of_find_none hf
        simp only [load_rows, hok]
        exact (ih (dictInsert acc name uids) hmore).1 bad hbad
    · intro hnone
      rw [hflat, List.find?_append] at hnone
      have h1 : refs.find? (fun r => !parseOk r) = none := by
        cases hf : refs.find? (fun r => !parseOk r) with
        | none => rfl
        | some b => rw [hf, Option.or_some] at hnone; simp at hnone
      have h2 : (more.flatMap List.tail).find? (fun r => !parseOk r) = none := by
        rw [h1, Option.none_or] at hnone
        exact hnone
      obtain ⟨uids, hok⟩ := parse_ids_ok_of_find_none h1
      simp only [load_rows, hok]
      exact (ih (dictInsert acc name uids) hmore).2 h2

/-! ## C7 -/

/-- C7 (confirmed): over roster inputs (rows with at least the
player-name cell, per the input interface), if any reference string in
any data row fails the identifier parser, `load_players` raises the
ValueError of the first failing reference in processing order and yields
no roster at all; it succeeds exactly when every reference in every data
row parses. -/
theorem c7_load_players_aborts_on_bad_ref
    (rows : List (List String)) (hrows : ∀ row ∈ rows, row ≠ []) :
    (∀ bad, firstFailingRef rows = some bad →
      load_players rows = Except.error (.valueError (fmtError bad))) ∧
    (firstFailingRef rows = none →
      ∃ players, load_players rows = Except.ok players) := by
  cases rows with
  | nil =>
    constructor
    · intro bad hbad; simp [firstFailingRef, effRows] at hbad
    · intro _; exact ⟨[], rfl⟩
  | cons row0 rest =>
    obtain ⟨c0, t0, rfl⟩ : ∃ c0 t0, row0 = c0 :: t0 := by
      cases row0 with
      | nil => exact absurd rfl (hrows [] (List.mem_cons_self _ _))
      | cons a b => exact ⟨a, b, rfl⟩
    have hrest : ∀ row ∈ rest, row ≠ [] :=
      fun r hr => hrows r (List.mem_cons_of_mem _ hr)
    by_cases hc : c0 = "player-name"
    · have heff : effRows ((c0 :: t0) :: rest) = rest := by
        simp [effRows, hc]
      have hload : load_players ((c0 :: t0) :: rest) = load_rows rest [] := by
        simp [load_players, hc]
      constructor
      · intro bad hbad
        unfold firstFailingRef at hbad
        rw [heff] at hbad
        rw [hload]
        exact (load_rows_find rest [] hrest).1 bad hbad
      · intro hnone
        unfold firstFailingRef at hnone
        rw [heff] at hnone
        rw [hload]
        exact (load_rows_find rest [] hrest).2 hnone
    · have heff : effRows ((c0 :: t0) :: rest) = (c0 :: t0) :: rest := by
        simp [effRows, hc]
      have hload : load_players ((c0 :: t0) :: rest) =
          load_rows ((c0 :: t0) :: rest) [] := by
        simp [load_players, hc]
      constructor
      · intro bad hbad
        unfold firstFailingRef at hbad
        rw [heff] at hbad
        rw [hload]
        exact (load_rows_find ((c0 :: t0) :: rest) [] hrows).1 bad hbad
      · intro hnone
        unfold firstFailingRef at hnone
        rw [heff] at hnone
        rw [hload]
        exact (load_rows_find ((c0 :: t0) :: rest) [] hrows).2 hnone

/-- C7 (witness): the roster row (N, nope) has the unparsable reference
nope, and `load_players` raises exactly its parse error. -/
theorem c7_witness :
    load_players [["N", "nope"]] =
      Except.error (.valueError (fmtError "nope")) :=
  (c7_load_players_aborts_on_bad_ref [["N", "nope"]] (by decide)).1
    "nope" (by decide)

/-! ## Lemmas about roster values -/

theorem parse_ids_mem {refs : List String} {uids : List String}
    (h : parse_ids refs = Except.ok uids) :
    ∀ uid ∈ uids, ∃ ref, parse_id ref = Except.ok uid := by
  induction refs generalizing uids with
  | nil =>
    injection h with h1
    subst h1
    intro uid hm
    cases hm
  | cons ref rest ih =>
    revert h
    unfold parse_ids
    cases hp : parse_id ref with
    | error e => intro h; simp at h
    | ok uid0 =>
      cases hr : parse_ids rest with
      | error e => intro h; simp at h
      | ok uids0 =>
        intro h
        injection h with h1
        subst h1
        intro uid hm
        rcases List.mem_cons.mp hm with rfl | hm2
        · exact ⟨ref, hp⟩
        · exact ih hr uid hm2

theorem parse_ids_length {refs : List String} {uids : List String}
    (h : parse_ids refs = Except.ok uids) : uids.length = refs.length := by
  induction refs generalizing uids with
  | nil =>
    injection h with h1
    subst h1
    rfl
  | cons ref rest ih =>
    revert h
    unfold parse_ids
    cases hp : parse_id ref with
    | error e => intro h; simp at h
    | ok uid0 =>
      cases hr : parse_ids rest with
      | error e => intro h; simp at h
      | ok uids0 =>
        intro h
        injection h with h1
        subst h1
        simp [ih hr]

theorem dictInsert_mem {acc : List (String × List String)} {name : String}
    {uids : List String} {p : String × List String}
    (h : p ∈ dictInsert acc name uids) : p ∈ acc ∨ p = (name, uids) := by
  induction acc with
  | nil =>
    simp only [dictInsert] at h
    rcases List.mem_cons.mp h with rfl | h2
    · exact Or.inr rfl
    · cases h2
  | cons kv rest ih =>
    obtain ⟨k, v⟩ := kv
    simp only [dictInsert] at h
    split at h
    · rcases List.mem_cons.mp h with rfl | h2
      · exact Or.inr rfl
      · exact Or.inl (List.mem_cons_of_mem _ h2)
    · rcases List.mem_cons.mp h with rfl | h2
      · exact Or.inl (List.mem_cons_self _ _)
      · rcases ih h2 with h3 | h3
        · exact Or.inl (List.mem_cons_of_mem _ h3)
        · exact Or.inr h3

theorem load_rows_values (P : List String → Prop) :
    ∀ (rs : List (List String)) (acc : List (String × List String)),
    (∀ name refs uids, (name :: refs) ∈ rs →
      parse_ids refs = Except.ok uids → P uids) →
    (∀ p ∈ acc, P p.2) →
    ∀ players, load_rows rs acc = Except.ok players →
      ∀ p ∈ players, P p.2 := by
  intro rs
  induction rs with
  | nil =>
    intro acc _ hacc players h
    injection h with h1
    subst h1
    exact hacc
  | cons row more ih =>
    intro acc hstep hacc players h
    cases row with
    | nil => simp [load_rows] at h
    | cons name refs =>
      cases hpi : parse_ids refs with
      | error e =>
        simp only [load_rows, hpi] at h
        exact Except.noConfusion h
      | ok uids =>
        simp only [load_rows, hpi] at h
        have hP : P uids := hstep name refs uids (List.mem_cons_self _ _) hpi
        refine ih (dictInsert acc name uids) ?_ ?_ players h
        · intro n2 r2 u2 hm hp2
          exact hstep n2 r2 u2 (List.mem_cons_of_mem _ hm) hp2
        · intro p hp
          rcases dictInsert_mem hp with hin | rfl
          · exact hacc p hin
          · exact hP

theorem load_players_values (P : List String → Prop)
    (rows : List (List String)) (players : List (String × List String))
    (hstep : ∀ name refs uids, (name :: refs) ∈ rows →
      parse_ids refs = Except.ok uids → P uids)
    (h : load_players rows = Except.ok players) :
    ∀ p ∈ players, P p.2 := by
  cases rows with
  | nil =>
    injection h with h1
    subst h1
    intro p hp
    cases hp
  | cons row0 rest =>
    cases row0 with
    | nil => simp [load_players] at h
    | cons c0 t0 =>
      by_cases hc : c0 = "player-name"
      · rw [show load_players ((c0 :: t0) :: rest) = load_rows rest [] by
          simp [load_players, hc]] at h
        exact load_rows_values P rest []
          (fun n r u hm hp => hstep n r u (List.mem_cons_of_mem _ hm) hp)
          (by simp) players h
      · rw [show load_players ((c0 :: t0) :: rest) =
            load_rows ((c0 :: t0) :: rest) [] by simp [load_players, hc]] at h
        exact load_rows_values P ((c0 :: t0) :: rest) [] hstep
          (by simp) players h

/-! ## C8 -/

/-- C8 (amended): after `load_players` succeeds, every player name in the
roster maps to an ordered list of account identifiers each of which was
produced by the identifier parser; the list is nonempty provided every
row had at least one reference cell (column count at least 2), but — as
the counterexample shows — a row holding only a player name yields an
empty identifier list, so the unconditional "non-empty" of the original
claim fails. -/
theorem c8_roster_values_parsed (rows : List (List String))
    (players : List (String × List String))
    (h : load_players rows = Except.ok players) :
    (∀ p ∈ players, ∀ uid ∈ p.2, ∃ ref, parse_id ref = Except.ok uid) ∧
    ((∀ row ∈ rows, 2 ≤ row.length) → ∀ p ∈ players, p.2 ≠ []) := by
  constructor
  · intro p hp uid hu
    exact load_players_values
      (fun uids => ∀ u ∈ uids, ∃ ref, parse_id ref = Except.ok u)
      rows players (fun n r u _ hpi => parse_ids_mem hpi) h p hp uid hu
  · intro hlen p hp
    refine load_players_values (fun uids => uids ≠ []) rows players ?_ h p hp
    intro n r u hm hpi h0
    have hl := parse_ids_length hpi
    have h2 := hlen (n :: r) hm
    rw [h0] at hl
    simp at hl h2
    omega

/-- C8 (witness): loading the row (N, a/view/123) succeeds with N bound
to the one-element list [123]; 123 is parser-produced and the list is
nonempty. -/
theorem c8_witness :
    (∃ ref, parse_id ref = Except.ok "123") ∧
    (["123"] : List String) ≠ [] := by
  have h := c8_roster_values_parsed [["N", "a/view/123"]] [("N", ["123"])]
    (by decide)
  exact ⟨h.1 ("N", ["123"]) (by decide) "123" (by decide),
         h.2 (by decide) ("N", ["123"]) (by decide)⟩

/-- C8 (counterexample): `load_players` accepts a row holding only a
player name and maps that player to the EMPTY identifier list, violating
the claimed non-emptiness. -/
theorem c8_counterexample :
    load_players [["N"]] = Except.ok [("N", [])] := by
  decide

/-! ## C9 -/

theorem foldl_header_eq (ladders : List String) :
    ∀ init : List String,
    ladders.foldl
      (fun acc ladder => acc ++ ["Current " ++ ladder, "Highest " ++ ladder])
      init =
      init ++ ladders.flatMap
        (fun ladder => ["Current " ++ ladder, "Highest " ++ ladder]) := by
  induction ladders with
  | nil => intro init; simp
  | cons l ls ih =>
    intro init
    rw [List.foldl_cons, ih]
    simp

/-- C9 (confirmed): `write_ratings` emits a header line of Player Name
followed by one Current/Highest column pair per requested ladder in
request order, then one data line per player in collection order, each
holding the ratings of that player in order. -/
theorem c9_write_ratings_layout
    (player_ratings : List (String × List String)) (ladders : List String) :
    write_ratings player_ratings ladders =
      String.intercalate ", " ("Player Name" ::
        ladders.flatMap
          (fun ladder => ["Current " ++ ladder, "Highest " ++ ladder])) ::
      player_ratings.map
        (fun p => p.1 ++ ", " ++ String.intercalate ", " p.2) := by
  simp only [write_ratings]
  rw [foldl_header_eq ladders [RATINGS_HEADER_START]]
  rfl

end ECL
